import Mathlib

/-!
# Verification of the ClipForge video-generation core

Shallow embedding of the queue / pipeline core of the repository
(`job_queue.py`, `worker.py`, `app.py`, `subtitle_generator.py`,
`image_generator.py`, `narration_generator.py`, `config.py`), together with
proofs of the spec-level claims about it.

Modelling conventions:
* Python strings are modelled as `List Char` (`Str`); `str.split()` /
  `str.strip()` are embedded as `pywords` / `pystrip`.
* Python floats are modelled as `ℚ`; `round(x, 2)` is modelled as rounding
  to the nearest multiple of `1/100` (`round2`).  The claims proved below
  only depend on rounding being a function of its argument.
* The persisted job-queue file (a JSON object with a `jobs` map and a
  `queue` list) is modelled as `QueueState`; JSON values stored in a job
  record are modelled by the inductive `Val`, and a job record (a Python
  dict) by an association list `Dict` with Python's insertion-order update
  semantics (`dictUpdate`).
* Operations that persist return the new `QueueState`; operations that can
  raise return `Except String _` with `.error` standing for the raised
  exception.
-/

/-- Python strings, modelled as lists of characters. -/
abbrev Str := List Char

/-- Embedding of Python `str.split()` (no argument): split on runs of
whitespace, dropping empty pieces. -/
def pywords : Str → List Str
  | [] => []
  | c :: cs =>
    if c.isWhitespace then pywords cs
    else (c :: cs.takeWhile (fun d => !d.isWhitespace)) ::
      pywords (cs.dropWhile (fun d => !d.isWhitespace))
termination_by s => s.length
decreasing_by
  · simp
  · have hle : ∀ (l : Str),
        (l.dropWhile (fun d => !d.isWhitespace)).length ≤ l.length := by
      intro l
      induction l with
      | nil => simp
      | cons a t ih =>
        by_cases hw : (!a.isWhitespace) = true
        · simp only [List.dropWhile_cons, hw, if_true, List.length_cons]
          omega
        · simp [List.dropWhile_cons, hw]
    have := hle cs
    simp
    omega

/-- Embedding of Python `str.strip()`: remove leading and trailing
whitespace. -/
def pystrip (s : Str) : Str :=
  ((s.dropWhile Char.isWhitespace).reverse.dropWhile Char.isWhitespace).reverse

/-- One subtitle segment, as produced by
`SubtitleGenerator._calculate_timings`: a dict with keys `text`,
`start_time`, `end_time`. -/
structure SubSeg where
  text : Str
  start_time : ℚ
  end_time : ℚ
deriving DecidableEq, Repr

/-- Python `round(x, 2)` (rounding to two decimal places).  Python uses
round-half-to-even on binary floats; the claims below depend only on the
rounding being a function of the exact value, so nearest-integer rounding
of `100 * x` is used. -/
def round2 (x : ℚ) : ℚ := (round (x * 100) : ℤ) / 100

/-- The timing loop of `SubtitleGenerator._calculate_timings`
(subtitle_generator.py lines 161-180): walk the `(segment, word_count)`
pairs keeping the running `current_time`; each segment gets duration
`word_count / total_words * total_duration` clamped to `[0.8, 5.0]`, end
time capped at `total_duration`, and stored times rounded to 2 decimals
(the running time stays unrounded, exactly as in the source). -/
def timingsAux (total_words : ℕ) (total_duration : ℚ) :
    List (Str × ℕ) → ℚ → List SubSeg
  | [], _ => []
  | (seg, wc) :: rest, current =>
    let dur := max (4/5 : ℚ) (min 5 ((wc : ℚ) / (total_words : ℚ) * total_duration))
    let e := min (current + dur) total_duration
    ⟨pystrip seg, round2 current, round2 e⟩ ::
      timingsAux total_words total_duration rest e

/-- `timed_segments[-1]['end_time'] = total_duration`
(subtitle_generator.py line 184): overwrite the last segment's end time. -/
def setLastEnd (d : ℚ) : List SubSeg → List SubSeg
  | [] => []
  | [s] => [⟨s.text, s.start_time, d⟩]
  | s :: t :: rest => s :: setLastEnd d (t :: rest)

/-- Embedding of `SubtitleGenerator._calculate_timings`
(subtitle_generator.py lines 139-186).  In the source, a nonempty segment
list whose total word count is zero raises `ZeroDivisionError`; in `ℚ`
division by zero yields `0`, which the fallback path below never hits
(its segments always contain at least one word). -/
def calculate_timings (segments : List Str) (total_duration : ℚ) :
    List SubSeg :=
  if segments.isEmpty then []
  else
    let word_counts := segments.map (fun s => (pywords s).length)
    let total_words := word_counts.sum
    setLastEnd total_duration
      (timingsAux total_words total_duration (segments.zip word_counts) 0)

/-- The chunking loop of `SubtitleGenerator._fallback_segmentation`
(`for i in range(0, len(words), 6)`): successive groups of at most 6
words. -/
def group6 : List Str → List (List Str)
  | [] => []
  | w :: rest => (w :: rest.take 5) :: group6 (rest.drop 5)
termination_by l => l.length
decreasing_by simp; omega

/-- Embedding of Python `' '.join(...)`: concatenate the pieces with a
single space between consecutive pieces. -/
def joinSpace : List Str → Str
  | [] => []
  | [w] => w
  | w :: w2 :: rest => w ++ ' ' :: joinSpace (w2 :: rest)

/-- `' '.join(words[i:i+6])` applied to every group: the segment strings
built by `_fallback_segmentation`. -/
def chunkWords (ws : List Str) : List Str :=
  (group6 ws).map joinSpace

/-- Embedding of `SubtitleGenerator._fallback_segmentation`
(subtitle_generator.py lines 188-208): split the script into words, join
groups of 6 into segment strings, and time them with
`_calculate_timings`. -/
def fallback_segmentation (script : Str) (audio_duration : ℚ) :
    List SubSeg :=
  calculate_timings (chunkWords (pywords script)) audio_duration

/-! ## Word-level lemmas about `pywords`, `joinSpace` and `group6` -/

/-- A word is a run of non-whitespace characters. -/
def GoodWord (w : Str) : Prop := w ≠ [] ∧ ∀ c ∈ w, c.isWhitespace = false

/-! ## Timing lemmas -/

/-- Contiguity of two consecutive subtitle segments: the first ends where
the second starts. -/
def Contig (a b : SubSeg) : Prop := a.end_time = b.start_time

/-! ## The job store (`job_queue.py`)

The persisted queue file holds a JSON object `{"jobs": {...}, "queue":
[...]}`; it is modelled by `QueueState`.  JSON values stored inside a job
record are modelled by `Val`: the values actually occurring are strings,
small integers (`progress`), `null`, ISO-format timestamp strings
(modelled as abstract instants `vtime`, ordered like the dates they
denote), and the flat string-valued request payload (`vdict`); the
pipeline's result payload is stored as an opaque `Val`.  A Python dict is
modelled as an association list in insertion order with Python's
`dict.__setitem__` / `dict.update` semantics. -/

inductive Val where
  | vstr : String → Val
  | vnat : ℕ → Val
  | vtime : ℕ → Val
  | vnull : Val
  | vdict : List (String × String) → Val
deriving DecidableEq, Repr

/-- A Python dict with string keys and JSON values, in insertion order. -/
abbrev Dict := List (String × Val)

/-- Dictionary lookup (`d.get(k)`; `d[k]` additionally raises when the
result is `none`). -/
def alookup {α : Type} (k : String) : List (String × α) → Option α
  | [] => none
  | (k', v) :: rest => if k' = k then some v else alookup k rest

/-- Replace the value stored at key `k` in place, keeping positions. -/
def replaceVal : Dict → String → Val → Dict
  | [], _, _ => []
  | (k0, v0) :: rest, k, v =>
    if k0 = k then (k, v) :: replaceVal rest k v
    else (k0, v0) :: replaceVal rest k v

/-- Python `d[k] = v`: replace the value in place if the key is present,
append the new pair otherwise. -/
def setItem (d : Dict) (k : String) (v : Val) : Dict :=
  if (alookup k d).isSome then replaceVal d k v
  else d ++ [(k, v)]

/-- Python `d.update(u)`: `for k, v in u.items(): d[k] = v`. -/
def dictUpdate (d u : Dict) : Dict :=
  u.foldl (fun acc p => setItem acc p.1 p.2) d

/-- The persisted queue file: the map of job id → job record (`jobs`) and
the Queue Index (`queue`). -/
structure QueueState where
  jobs : List (String × Dict)
  queue : List String
deriving DecidableEq, Repr

/-- The job record created by `JobQueue.add_job` (job_queue.py lines
63-74). -/
def newJobRecord (job_id : String) (video_data : List (String × String))
    (created_at : ℕ) : Dict :=
  [("id", Val.vstr job_id),
   ("status", Val.vstr "queued"),
   ("progress", Val.vnat 0),
   ("message", Val.vstr "Job queued"),
   ("video_data", Val.vdict video_data),
   ("created_at", Val.vtime created_at),
   ("started_at", Val.vnull),
   ("completed_at", Val.vnull),
   ("result", Val.vnull),
   ("error", Val.vnull)]

/-- Embedding of `JobQueue.add_job` (job_queue.py lines 49-81).  The
source draws `job_id` from `uuid.uuid4()` and `created_at` from
`datetime.now()`; both are passed as parameters here.  `uuid4` freshness
(`job_id` not already a key) is assumed where a theorem needs it. -/
def add_job (st : QueueState) (video_data : List (String × String))
    (job_id : String) (created_at : ℕ) : String × QueueState :=
  (job_id,
   { jobs := st.jobs ++ [(job_id, newJobRecord job_id video_data created_at)],
     queue := st.queue ++ [job_id] })

/-- The scan inside `JobQueue.get_next_job`: first id in Queue Index order
whose record exists and has status `queued`.  (A record that is an empty
dict is skipped by the source's `if job and ...` truthiness test; here it
is skipped because its `status` lookup fails.) -/
def getNext (jobs : List (String × Dict)) : List String → Option Dict
  | [] => none
  | id :: rest =>
    match alookup id jobs with
    | some job =>
      if alookup "status" job = some (Val.vstr "queued") then some job
      else getNext jobs rest
    | none => getNext jobs rest

/-- Embedding of `JobQueue.get_next_job` (job_queue.py lines 83-98): a
pure read; the persisted state after the call is returned unchanged (the
source never calls `_save_queue` here). -/
def get_next_job (st : QueueState) : Option Dict × QueueState :=
  (getNext st.jobs st.queue, st)

/-- Embedding of `JobQueue.update_job` (job_queue.py lines 100-116):
raises `ValueError` (the `.error` case) when the id is not a key of the
job map — in which case nothing has been persisted — and otherwise merges
the updates into the named record and persists. -/
def updateJobs (jid : String) (upd : Dict) :
    List (String × Dict) → List (String × Dict)
  | [] => []
  | (k, j) :: rest =>
    if k = jid then (k, dictUpdate j upd) :: updateJobs jid upd rest
    else (k, j) :: updateJobs jid upd rest

def update_job (st : QueueState) (job_id : String) (updates : Dict) :
    Except String Unit × QueueState :=
  if (alookup job_id st.jobs).isSome then
    (.ok (), { jobs := updateJobs job_id updates st.jobs,
               queue := st.queue })
  else (.error ("Job " ++ job_id ++ " not found"), st)

/-- Embedding of `JobQueue.get_job` (job_queue.py lines 118-129): a pure
read. -/
def get_job (st : QueueState) (job_id : String) :
    Option Dict × QueueState :=
  (alookup job_id st.jobs, st)

/-- Embedding of `JobQueue.get_queued_jobs` (job_queue.py lines 141-152):
a pure read. -/
def get_queued_jobs (st : QueueState) : List Dict × QueueState :=
  ((st.jobs.map Prod.snd).filter
    (fun j => alookup "status" j = some (Val.vstr "queued")), st)

/-- `job['status'] in [JobStatus.COMPLETED, JobStatus.FAILED]`. -/
def isTerminalJob (j : Dict) : Bool :=
  alookup "status" j = some (Val.vstr "completed") ||
    alookup "status" j = some (Val.vstr "failed")

/-- The per-job removal test of `JobQueue.cleanup_old_jobs`: terminal
status, a truthy `completed_at`, and a completion instant strictly before
the cutoff (`datetime.fromisoformat(completed_at) < cutoff_date`). -/
def removableAt (cutoff : ℕ) (j : Dict) : Bool :=
  isTerminalJob j &&
    match alookup "completed_at" j with
    | some (Val.vtime t) => decide (t < cutoff)
    | _ => false

/-- Python `list.remove(x)` guarded by `if x in list`: delete the first
occurrence of `x`, if any. -/
def removeFirst (x : String) : List String → List String
  | [] => []
  | y :: ys => if y = x then ys else y :: removeFirst x ys

/-- Python `del jobs[job_id]`: remove the (unique) pair with the given
key; on an association list, the first such pair. -/
def eraseJob (jid : String) : List (String × Dict) → List (String × Dict)
  | [] => []
  | (k, j) :: rest => if k = jid then rest else (k, j) :: eraseJob jid rest

/-- Embedding of `JobQueue.cleanup_old_jobs` (job_queue.py lines 183-212):
collect the ids of removable jobs in map order, then delete each from the
record map and from the Queue Index; return the count removed.  The source
computes the cutoff as `datetime.now() - timedelta(days=days)`; the cutoff
instant is passed directly. -/
def cleanup_old_jobs (st : QueueState) (cutoff : ℕ) : ℕ × QueueState :=
  let toRemove := (st.jobs.filter (fun p => removableAt cutoff p.2)).map Prod.fst
  (toRemove.length,
   { jobs := toRemove.foldl (fun js jid => eraseJob jid js) st.jobs,
     queue := toRemove.foldl (fun q jid => removeFirst jid q) st.queue })

/-- `config.MAX_SCRIPT_LENGTH` (default 1500). -/
def MAX_SCRIPT_LENGTH : ℕ := 1500

/-- `config.VIDEO_FORMATS`: format key → (width, height). -/
def VIDEO_FORMATS : List (String × (ℕ × ℕ)) :=
  [("9:16", (1080, 1920)), ("16:9", (1920, 1080)), ("1:1", (1080, 1080))]

/-- `config.VIDEO_STYLES`. -/
def VIDEO_STYLES : List String :=
  ["Realistic Action Art", "B&W Sketch", "Comic Noir", "Retro Noir",
   "Medieval Painting", "Anime", "Warm Fable", "Hyper Realistic",
   "3D Cartoon", "Caricature"]

/-- `config.VOICE_TYPES`: ElevenLabs voice name → voice id (config.py
lines 72-95). -/
def VOICE_TYPES : List (String × String) :=
  [("Roger", "CwhRBWXzGAHq8TQ4Fs17"),
   ("Sarah", "EXAVITQu4vr4xnSDxMaL"),
   ("Shelby", "EXAVITQu4vr4xnSDxMaL"),
   ("Laura", "FGY2WhTYpPnrIDTdsKH5"),
   ("Charlie", "IKne3meq5aSn9XLyUdCD"),
   ("George", "JBFqnCBsd6RMkjVDRZzb"),
   ("James", "JBFqnCBsd6RMkjVDRZzb"),
   ("Callum", "N2lVS1w4EtoT3dr4eOWO"),
   ("B.Giffen", "N2lVS1w4EtoT3dr4eOWO"),
   ("River", "SAz9YHcvj6GT2YYXdXww"),
   ("Liam", "TX3LPaxmHKxFdv7VOQHJ"),
   ("Alice", "Xb7hH8MSUJpSbSDYk0k2"),
   ("Matilda", "XrExE9yKIg1WjnnlVkGX"),
   ("Jessica", "cgSgspJ2msm6clMCkdW9"),
   ("Lulu Lollipop", "cgSgspJ2msm6clMCkdW9"),
   ("Eric", "cjVigY5qzO86Huf0OWal"),
   ("Chris", "iP95p4xoKVk53GoZ742B"),
   ("Brian", "nPczCjzI2devNBz1zQrb"),
   ("Daniel", "onwK4e9ZLuTAKqWW03F9"),
   ("Lily", "pFZP5JQG7iQjIQuC4Bku"),
   ("Adam", "pNInz6obpgDQGcFmaJgB"),
   ("Bill", "pqHfZKP75CvOlQylNhV4")]

/-! ## Request submission (`app.py::create_video`) -/

/-- The validated request body (`VideoRequest` pydantic model, app.py
lines 190-198): all fields are plain strings, with no enumeration
constraint on `format`, `style` or `voice`. -/
structure VideoRequest where
  title : String
  category : String
  format : String
  style : String
  voice : String
  script : String
  keywords : String
  negative_keywords : String
deriving DecidableEq, Repr

/-- `video_data.dict()`: the request payload stored with the job. -/
def videoDataDict (r : VideoRequest) : List (String × String) :=
  [("title", r.title), ("category", r.category), ("format", r.format),
   ("style", r.style), ("voice", r.voice), ("script", r.script),
   ("keywords", r.keywords), ("negative_keywords", r.negative_keywords)]

/-- Embedding of the `POST /api/create-video` handler (app.py lines
223-258): reject with HTTP 400 (the `.error` case, store untouched) when
the script exceeds `MAX_SCRIPT_LENGTH`; otherwise add a job to the queue
and return its id.  No other validation is performed by the handler. -/
def create_video (st : QueueState) (r : VideoRequest) (job_id : String)
    (now : ℕ) : Except String String × QueueState :=
  if r.script.length > MAX_SCRIPT_LENGTH then
    (.error ("Script too long. Maximum "
      ++ toString MAX_SCRIPT_LENGTH ++ " characters"), st)
  else
    let res := add_job st (videoDataDict r) job_id now
    (.ok res.1, res.2)

/-! ## The worker (`worker.py::process_job`) -/

/-- The first status update of `VideoWorker.process_job` (worker.py lines
47-52). -/
def processingUpdates (started_at : ℕ) : Dict :=
  [("status", Val.vstr "processing"), ("progress", Val.vnat 5),
   ("message", Val.vstr "Starting video generation..."),
   ("started_at", Val.vtime started_at)]

/-- The progress update before narration (worker.py lines 55-58). -/
def narrationUpdates : Dict :=
  [("progress", Val.vnat 15), ("message", Val.vstr "Generating narration...")]

/-- The completion update (worker.py lines 64-70). -/
def completedUpdates (completed_at : ℕ) (result : Val) : Dict :=
  [("status", Val.vstr "completed"), ("progress", Val.vnat 100),
   ("message", Val.vstr "Video generation complete!"),
   ("completed_at", Val.vtime completed_at), ("result", result)]

/-- The failure update written by the `except` handler (worker.py lines
83-88).  The exception is modelled by its trace string `e`; the source
stores `str(e)` in `message` and the full `traceback.format_exc()` in
`error`, both non-null. -/
def failedUpdates (completed_at : ℕ) (e : String) : Dict :=
  [("status", Val.vstr "failed"), ("message", Val.vstr ("Error: " ++ e)),
   ("completed_at", Val.vtime completed_at), ("error", Val.vstr e)]

/-- The `except` handler of `VideoWorker.process_job` (worker.py lines
74-88), entered with the store as left by the updates persisted so far:
mark the job failed.  An exception raised by this `update_job` itself
(unknown id) escapes `process_job`. -/
def processJobHandler (completed_at : ℕ) (job_id e : String)
    (st : QueueState) : Except String QueueState :=
  let rf := update_job st job_id (failedUpdates completed_at e)
  match rf.1 with
  | .ok _ => .ok rf.2
  | .error e2 => .error e2

/-- Embedding of `VideoWorker.process_job` (worker.py lines 31-88).  The
pipeline call `self.pipeline.generate_video(job['video_data'])` is the
external collaborator `pipe`; `started_at` and `completed_at` are the two
`datetime.now()` instants.  A `.ok` result means `process_job` returned
normally (no exception escaped to the worker loop); `.error` means an
exception propagated.  `job['id']` is read before the `try` block, so a
missing `id` propagates; every other exception is caught by the handler. -/
def process_job (pipe : List (String × String) → Except String Val)
    (job : Dict) (started_at completed_at : ℕ) (st : QueueState) :
    Except String QueueState :=
  match alookup "id" job with
  | some (Val.vstr job_id) =>
    let r1 := update_job st job_id (processingUpdates started_at)
    match r1.1 with
    | .error e => processJobHandler completed_at job_id e r1.2
    | .ok _ =>
      let r2 := update_job r1.2 job_id narrationUpdates
      match r2.1 with
      | .error e => processJobHandler completed_at job_id e r2.2
      | .ok _ =>
        match alookup "video_data" job with
        | some (Val.vdict vd) =>
          match pipe vd with
          | .error e => processJobHandler completed_at job_id e r2.2
          | .ok result =>
            let r3 := update_job r2.2 job_id
              (completedUpdates completed_at result)
            match r3.1 with
            | .error e => processJobHandler completed_at job_id e r3.2
            | .ok _ => .ok r3.2
        | _ => processJobHandler completed_at job_id
            "KeyError: video_data" r2.2
  | _ => .error "KeyError: id"

/-! ## Image generation (`image_generator.py`) -/

/-- `ImageGenerator._get_image_size` (image_generator.py lines 159-167):
any format other than the two wide ones falls through to square. -/
def get_image_size (video_format : String) : String :=
  if video_format = "9:16" then "1024x1792"
  else if video_format = "16:9" then "1792x1024"
  else "1024x1024"

/-- `ImageGenerator._create_placeholder` (image_generator.py lines
169-191): looks the format up in `config.VIDEO_FORMATS` — raising
`KeyError` (the `.error` case) for an unknown format — and writes
`placeholder_{index}.png` (the `%03d` padding of the file name is not
modelled). -/
def create_placeholder (index : ℕ) (video_format : String) :
    Except String String :=
  match alookup video_format VIDEO_FORMATS with
  | some _ => .ok ("placeholder_" ++ toString index ++ ".png")
  | none => .error "KeyError"

/-- The per-prompt provider chain of `ImageGenerator.generate_images`
(image_generator.py lines 46-72): Gemini when configured (`none` models
an unset `GOOGLE_API_KEY`, a `g p = none` result models a caught Gemini
failure), then DALL-E, each returning the saved path or `none` on
failure. -/
def providerImage {P : Type} (gemini : Option (P → Option String))
    (dalle : P → Option String) (p : P) : Option String :=
  match (match gemini with | some g => g p | none => none) with
  | some path => some path
  | none => dalle p

/-- The loop of `ImageGenerator.generate_images` with 1-based index `i`:
a provider failure for a prompt is caught and degrades to a placeholder;
an exception from `_create_placeholder` itself (unknown format) is raised
inside the `except` handler and escapes the whole call. -/
def genImagesFrom {P : Type} (gemini : Option (P → Option String))
    (dalle : P → Option String) (video_format : String) :
    ℕ → List P → Except String (List String)
  | _, [] => .ok []
  | i, p :: rest =>
    match providerImage gemini dalle p with
    | some path => (genImagesFrom gemini dalle video_format (i+1) rest).map
        (fun paths => path :: paths)
    | none =>
      match create_placeholder i video_format with
      | .ok ph => (genImagesFrom gemini dalle video_format (i+1) rest).map
          (fun paths => ph :: paths)
      | .error e => .error e

/-- Embedding of `ImageGenerator.generate_images` (image_generator.py
lines 27-83); prompt dicts are opaque values of type `P` handed to the
providers. -/
def generate_images {P : Type} (gemini : Option (P → Option String))
    (dalle : P → Option String) (prompts : List P)
    (video_format : String) : Except String (List String) :=
  genImagesFrom gemini dalle video_format 1 prompts

/-- The image path the chain produces for the `i`-th prompt (1-based). -/
def imageFor {P : Type} (gemini : Option (P → Option String))
    (dalle : P → Option String) (i : ℕ) (p : P) : String :=
  match providerImage gemini dalle p with
  | some path => path
  | none => "placeholder_" ++ toString i ++ ".png"

/-! ## Claim C7 -/

/-- The invariant claimed by the spec: every identifier in the Queue
Index has a corresponding Job record, and every Job whose status is
`queued` appears in the Queue Index exactly once. -/
def InvClaim (st : QueueState) : Prop :=
  (∀ id ∈ st.queue, (alookup id st.jobs).isSome) ∧
  (∀ p ∈ st.jobs, alookup "status" p.2 = some (Val.vstr "queued") →
    st.queue.count p.1 = 1)

/-- The inductive strengthening actually maintained by the operations:
record keys are unique, every Index entry has a record, and every
record's identifier appears in the Index exactly once (whatever its
status).  It holds of the initial empty store and implies `InvClaim`. -/
def InvStrong (st : QueueState) : Prop :=
  (st.jobs.map Prod.fst).Nodup ∧
  (∀ id ∈ st.queue, (alookup id st.jobs).isSome) ∧
  (∀ p ∈ st.jobs, st.queue.count p.1 = 1)

instance (st : QueueState) : Decidable (InvClaim st) := by
  unfold InvClaim
  infer_instance

instance (st : QueueState) : Decidable (InvStrong st) := by
  unfold InvStrong
  infer_instance

/-! ## Narration voice substitution (`narration_generator.py`) -/

/-- The voice-id resolution of `NarrationGenerator._generate_with_elevenlabs`
(narration_generator.py lines 50-57): an unrecognized voice name is
replaced by the default `'Zara'` and the result is looked up with
`self.voices[voice_name]`, whose `KeyError` is the `none` case. -/
def elevenLabsVoiceId (voice_name : String) : Option String :=
  let name := if (alookup voice_name VOICE_TYPES).isSome then voice_name
    else "Zara"
  alookup name VOICE_TYPES

/-! ## Claim C5 -/

/-- The spec's description of `next_queued`: "scans the Queue Index in
order and returns the first Job still in `queued` status, or none if no
such job exists" — the first element, in Queue Index order, of the
records that exist and are queued. -/
def specNextQueued (st : QueueState) : Option Dict :=
  ((st.queue.filterMap (fun id => alookup id st.jobs)).filter
    (fun j => alookup "status" j = some (Val.vstr "queued"))).head?

lemma dropWhile_length_le {α : Type} (p : α → Bool) (l : List α) :
    (l.dropWhile p).length ≤ l.length := by
  induction l with
  | nil => simp [List.dropWhile]
  | cons a l ih =>
    by_cases h : p a
    · simp [List.dropWhile, h]; omega
    · simp [List.dropWhile, h]

theorem pywords_mem : ∀ (s : Str), ∀ w ∈ pywords s, GoodWord w
  | [] => by simp [pywords]
  | c :: cs => by
    by_cases h : c.isWhitespace
    · simpa [pywords, h] using pywords_mem cs
    · intro w hw
      rw [pywords] at hw
      simp only [h, if_false] at hw
      rcases List.mem_cons.mp hw with hweq | hwmem
      · subst hweq
        refine ⟨by simp, ?_⟩
        intro d hd
        rcases List.mem_cons.mp hd with rfl | hd'
        · simpa using h
        · have := List.mem_takeWhile_imp hd'
          simpa using this
      · exact pywords_mem _ w hwmem
termination_by s => s.length
decreasing_by
  · simp
  · have := dropWhile_length_le (fun d => !d.isWhitespace) cs
    simp; omega

lemma takeWhile_all {α : Type} (p : α → Bool) :
    ∀ (l : List α), (∀ a ∈ l, p a = true) → l.takeWhile p = l := by
  intro l h
  induction l with
  | nil => simp
  | cons a t ih =>
    have ha := h a (by simp)
    simp [List.takeWhile_cons, ha, ih (fun b hb => h b (by simp [hb]))]

lemma dropWhile_all {α : Type} (p : α → Bool) :
    ∀ (l : List α), (∀ a ∈ l, p a = true) → l.dropWhile p = [] := by
  intro l h
  induction l with
  | nil => simp
  | cons a t ih =>
    have ha := h a (by simp)
    simp [List.dropWhile_cons, ha, ih (fun b hb => h b (by simp [hb]))]

lemma takeWhile_append_stop {α : Type} (p : α → Bool) (x : α) (hx : p x = false) :
    ∀ (l t : List α), (∀ a ∈ l, p a = true) →
      (l ++ x :: t).takeWhile p = l := by
  intro l t h
  induction l with
  | nil => simp [List.takeWhile_cons, hx]
  | cons a u ih =>
    have ha := h a (by simp)
    simp [List.takeWhile_cons, ha, ih (fun b hb => h b (by simp [hb]))]

lemma dropWhile_append_stop {α : Type} (p : α → Bool) (x : α) (hx : p x = false) :
    ∀ (l t : List α), (∀ a ∈ l, p a = true) →
      (l ++ x :: t).dropWhile p = x :: t := by
  intro l t h
  induction l with
  | nil => simp [List.dropWhile_cons, hx]
  | cons a u ih =>
    have ha := h a (by simp)
    simp [List.dropWhile_cons, ha, ih (fun b hb => h b (by simp [hb]))]

/-- On a single whitespace-free nonempty word, `str.split()` returns just
that word. -/
theorem pywords_word (w : Str) (hw : GoodWord w) : pywords w = [w] := by
  obtain ⟨hne, hchars⟩ := hw
  obtain ⟨c, cs, rfl⟩ := List.exists_cons_of_ne_nil hne
  have hc : c.isWhitespace = false := hchars c (by simp)
  have hcs : ∀ d ∈ cs, (!d.isWhitespace) = true := by
    intro d hd; simp [hchars d (by simp [hd])]
  rw [pywords]
  simp only [hc, Bool.false_eq_true, if_false]
  rw [takeWhile_all _ cs hcs, dropWhile_all _ cs hcs]
  simp [pywords]

/-- Splitting `w + ' ' + t` peels off the leading word `w`. -/
theorem pywords_word_append (w : Str) (hw : GoodWord w) (t : Str) :
    pywords (w ++ ' ' :: t) = w :: pywords t := by
  obtain ⟨hne, hchars⟩ := hw
  obtain ⟨c, cs, rfl⟩ := List.exists_cons_of_ne_nil hne
  have hc : c.isWhitespace = false := hchars c (by simp)
  have hcs : ∀ d ∈ cs, (!d.isWhitespace) = true := by
    intro d hd; simp [hchars d (by simp [hd])]
  have hsp : (!(' ').isWhitespace) = false := by decide
  rw [List.cons_append, pywords]
  simp only [hc, Bool.false_eq_true, if_false]
  rw [takeWhile_append_stop _ ' ' hsp cs t hcs,
    dropWhile_append_stop _ ' ' hsp cs t hcs]
  have : pywords (' ' :: t) = pywords t := by
    rw [pywords]; simp [Char.isWhitespace]
  rw [this]

/-- `str.split()` of a `' '.join` of whitespace-free nonempty words gives
back exactly those words. -/
theorem pywords_joinSpace : ∀ (l : List Str), (∀ w ∈ l, GoodWord w) →
    pywords (joinSpace l) = l
  | [] => by simp [joinSpace, pywords]
  | [w] => by
    intro h
    simpa [joinSpace] using pywords_word w (h w (by simp))
  | w :: w2 :: rest => by
    intro h
    rw [joinSpace, pywords_word_append w (h w (by simp)),
      pywords_joinSpace (w2 :: rest) (fun u hu => h u (by simp [hu]))]

theorem group6_flatten : ∀ (ws : List Str), (group6 ws).flatten = ws
  | [] => by simp [group6]
  | w :: rest => by
    rw [group6]
    simp [group6_flatten (rest.drop 5)]
termination_by ws => ws.length
decreasing_by simp; omega

theorem group6_mem_ne_nil : ∀ (ws : List Str), ∀ g ∈ group6 ws, g ≠ []
  | [] => by simp [group6]
  | w :: rest => by
    intro g hg
    rw [group6] at hg
    rcases List.mem_cons.mp hg with rfl | hg'
    · simp
    · exact group6_mem_ne_nil (rest.drop 5) g hg'
termination_by ws => ws.length
decreasing_by simp; omega

theorem group6_mem_mem (ws : List Str) (g : List Str) (hg : g ∈ group6 ws)
    (w : Str) (hw : w ∈ g) : w ∈ ws := by
  have : w ∈ (group6 ws).flatten := List.mem_flatten.mpr ⟨g, hg, hw⟩
  rwa [group6_flatten] at this

/-! ## `pystrip` is the identity on strings with non-whitespace ends -/

lemma mem_of_getLast?_mem {α : Type} {x : α} {l : List α}
    (h : x ∈ l.getLast?) : x ∈ l := by
  obtain ⟨hne, rfl⟩ := List.mem_getLast?_eq_getLast h
  exact List.getLast_mem hne

lemma dropWhile_head_false (t : Str)
    (h : ∀ c ∈ t.head?, c.isWhitespace = false) :
    t.dropWhile Char.isWhitespace = t := by
  cases t with
  | nil => simp
  | cons c cs =>
    have := h c (by simp)
    simp [List.dropWhile_cons, this]

theorem pystrip_eq_self (s : Str)
    (hh : ∀ c ∈ s.head?, c.isWhitespace = false)
    (hl : ∀ c ∈ s.getLast?, c.isWhitespace = false) :
    pystrip s = s := by
  unfold pystrip
  rw [dropWhile_head_false s hh]
  have : s.reverse.dropWhile Char.isWhitespace = s.reverse := by
    apply dropWhile_head_false
    rw [List.head?_reverse]
    exact hl
  rw [this, List.reverse_reverse]

theorem joinSpace_ne_nil : ∀ (l : List Str), l ≠ [] →
    (∀ w ∈ l, GoodWord w) → joinSpace l ≠ []
  | [], h, _ => absurd rfl h
  | [w], _, hg => by simpa [joinSpace] using (hg w (by simp)).1
  | w :: w2 :: rest, _, hg => by
    simp [joinSpace]

theorem joinSpace_head_chars : ∀ (l : List Str), (∀ w ∈ l, GoodWord w) →
    ∀ c ∈ (joinSpace l).head?, c.isWhitespace = false
  | [] => by simp [joinSpace]
  | [w] => by
    intro hg c hc
    obtain ⟨hne, hchars⟩ := hg w (by simp)
    exact hchars c (List.mem_of_mem_head? (by simpa [joinSpace] using hc))
  | w :: w2 :: rest => by
    intro hg c hc
    obtain ⟨hne, hchars⟩ := hg w (by simp)
    obtain ⟨a, as, rfl⟩ := List.exists_cons_of_ne_nil hne
    simp only [joinSpace, List.cons_append, List.head?_cons,
      Option.mem_some_iff] at hc
    subst hc
    exact hchars _ (by simp)

theorem joinSpace_getLast_chars : ∀ (l : List Str), (∀ w ∈ l, GoodWord w) →
    ∀ c ∈ (joinSpace l).getLast?, c.isWhitespace = false
  | [] => by simp [joinSpace]
  | [w] => by
    intro hg c hc
    obtain ⟨hne, hchars⟩ := hg w (by simp)
    exact hchars c (mem_of_getLast?_mem (by simpa [joinSpace] using hc))
  | w :: w2 :: rest => by
    intro hg c hc
    have hrest : ∀ u ∈ w2 :: rest, GoodWord u := fun u hu => hg u (by simp [hu])
    have hne2 : joinSpace (w2 :: rest) ≠ [] :=
      joinSpace_ne_nil (w2 :: rest) (by simp) hrest
    rw [joinSpace, List.getLast?_append_of_ne_nil w (by simp)] at hc
    have : (' ' :: joinSpace (w2 :: rest)).getLast?
        = (joinSpace (w2 :: rest)).getLast? := by
      obtain ⟨a, as, hjs⟩ := List.exists_cons_of_ne_nil hne2
      rw [hjs, List.getLast?_cons_cons]
    rw [this] at hc
    exact joinSpace_getLast_chars (w2 :: rest) hrest c hc

/-- The per-chunk text stored by the fallback segmenter: stripping a joined
chunk is the identity, and re-splitting it recovers the chunk's words. -/
theorem pywords_pystrip_joinSpace (g : List Str)
    (hg : ∀ w ∈ g, GoodWord w) :
    pywords (pystrip (joinSpace g)) = g := by
  rw [pystrip_eq_self (joinSpace g) (joinSpace_head_chars g hg)
    (joinSpace_getLast_chars g hg)]
  exact pywords_joinSpace g hg

theorem round2_zero : round2 0 = 0 := by simp [round2]

theorem timingsAux_map_text (tw : ℕ) (td : ℚ) :
    ∀ (l : List (Str × ℕ)) (cur : ℚ),
      (timingsAux tw td l cur).map SubSeg.text = l.map (fun p => pystrip p.1)
  | [], _ => by simp [timingsAux]
  | (s, wc) :: rest, cur => by
    simp [timingsAux, timingsAux_map_text tw td rest]

theorem timingsAux_ne_nil (tw : ℕ) (td : ℚ) (l : List (Str × ℕ)) (cur : ℚ)
    (h : l ≠ []) : timingsAux tw td l cur ≠ [] := by
  obtain ⟨⟨s, wc⟩, rest, rfl⟩ := List.exists_cons_of_ne_nil h
  simp [timingsAux]

theorem timingsAux_head_start (tw : ℕ) (td : ℚ) (l : List (Str × ℕ))
    (cur : ℚ) : ∀ x ∈ (timingsAux tw td l cur).head?,
      x.start_time = round2 cur := by
  cases l with
  | nil => simp [timingsAux]
  | cons p rest =>
    obtain ⟨s, wc⟩ := p
    simp [timingsAux]

theorem timingsAux_chain (tw : ℕ) (td : ℚ) :
    ∀ (l : List (Str × ℕ)) (cur : ℚ),
      List.Chain' Contig (timingsAux tw td l cur)
  | [], _ => by simp [timingsAux]
  | (s, wc) :: rest, cur => by
    simp only [timingsAux]
    rw [List.chain'_cons']
    refine ⟨fun y hy => ?_, timingsAux_chain tw td rest _⟩
    have := timingsAux_head_start tw td rest _ y hy
    exact this.symm

theorem setLastEnd_map_text (d : ℚ) : ∀ (l : List SubSeg),
    (setLastEnd d l).map SubSeg.text = l.map SubSeg.text
  | [] => by simp [setLastEnd]
  | [s] => by simp [setLastEnd]
  | s :: t :: rest => by
    simp [setLastEnd, setLastEnd_map_text d (t :: rest)]

theorem setLastEnd_head_start (d : ℚ) : ∀ (l : List SubSeg),
    ((setLastEnd d l).head?).map SubSeg.start_time
      = (l.head?).map SubSeg.start_time
  | [] => by simp [setLastEnd]
  | [s] => by simp [setLastEnd]
  | s :: t :: rest => by simp [setLastEnd]

theorem setLastEnd_chain (d : ℚ) : ∀ (l : List SubSeg),
    List.Chain' Contig l → List.Chain' Contig (setLastEnd d l)
  | [] => by simp [setLastEnd]
  | [s] => by simp [setLastEnd]
  | s :: t :: rest => by
    intro h
    rw [List.chain'_cons'] at h
    obtain ⟨h1, h2⟩ := h
    rw [setLastEnd, List.chain'_cons']
    refine ⟨fun y hy => ?_, setLastEnd_chain d (t :: rest) h2⟩
    have h1t : Contig s t := h1 t (by simp)
    have hmap : (setLastEnd d (t :: rest)).head?.map SubSeg.start_time
        = some t.start_time := by
      simpa using setLastEnd_head_start d (t :: rest)
    rw [Option.mem_def] at hy
    rw [hy, Option.map_some'] at hmap
    have : y.start_time = t.start_time := by
      exact Option.some.inj hmap
    exact h1t.trans this.symm

theorem setLastEnd_getLast_end (d : ℚ) : ∀ (l : List SubSeg), l ≠ [] →
    ((setLastEnd d l).getLast?).map SubSeg.end_time = some d
  | [], h => absurd rfl h
  | [s], _ => by simp [setLastEnd]
  | s :: t :: rest, _ => by
    have ih := setLastEnd_getLast_end d (t :: rest) (by simp)
    rw [setLastEnd]
    obtain ⟨u, us, hu⟩ : ∃ u us, setLastEnd d (t :: rest) = u :: us := by
      cases rest with
      | nil => exact ⟨_, _, rfl⟩
      | cons v vs => exact ⟨_, _, rfl⟩
    rw [hu, List.getLast?_cons_cons, ← hu]
    exact ih

theorem calculate_timings_chain (segs : List Str) (td : ℚ) :
    List.Chain' Contig (calculate_timings segs td) := by
  unfold calculate_timings
  rcases e : segs.isEmpty
  · simp only [e, Bool.false_eq_true, if_false]
    exact setLastEnd_chain _ _ (timingsAux_chain _ _ _ _)
  · simp [e]

theorem calculate_timings_head_start (segs : List Str) (td : ℚ)
    (hne : segs ≠ []) :
    ((calculate_timings segs td).head?).map SubSeg.start_time = some 0 := by
  obtain ⟨s, ss, rfl⟩ := List.exists_cons_of_ne_nil hne
  unfold calculate_timings
  simp only [List.isEmpty_cons, Bool.false_eq_true, if_false]
  rw [setLastEnd_head_start]
  simp only [List.map_cons, List.zip_cons_cons, timingsAux, List.head?_cons,
    Option.map_some']
  rw [round2_zero]

theorem calculate_timings_getLast_end (segs : List Str) (td : ℚ)
    (hne : segs ≠ []) :
    ((calculate_timings segs td).getLast?).map SubSeg.end_time = some td := by
  obtain ⟨s, ss, rfl⟩ := List.exists_cons_of_ne_nil hne
  unfold calculate_timings
  simp only [List.isEmpty_cons, Bool.false_eq_true, if_false]
  apply setLastEnd_getLast_end
  apply timingsAux_ne_nil
  simp [List.zip_cons_cons]

theorem calculate_timings_map_text (segs : List Str) (td : ℚ) :
    (calculate_timings segs td).map SubSeg.text = segs.map pystrip := by
  unfold calculate_timings
  rcases e : segs.isEmpty
  · simp only [e, Bool.false_eq_true, if_false]
    rw [setLastEnd_map_text, timingsAux_map_text]
    have hfun : (fun p : Str × ℕ => pystrip p.1) = pystrip ∘ Prod.fst := rfl
    rw [hfun, ← List.map_map, List.map_fst_zip]
    simp
  · have : segs = [] := by simpa using e
    simp [this]

theorem chunkWords_ne_nil (ws : List Str) (h : ws ≠ []) :
    chunkWords ws ≠ [] := by
  obtain ⟨w, rest, rfl⟩ := List.exists_cons_of_ne_nil h
  rw [chunkWords, group6]
  simp

/-! ## Claim C1 and claim C10 -/

/-- **C1** (counterexample to the claim as stated): on the empty script —
which contains no words — the fallback segmenter produces no segments at
all, so there is no first segment starting at 0, and the last segment's
end time does not equal the given total duration (the duration is not
covered). -/
theorem fallback_empty_script_counterexample :
    fallback_segmentation [] 10 = [] ∧
    ((fallback_segmentation [] 10).head?).map SubSeg.start_time ≠ some 0 ∧
    ((fallback_segmentation [] 10).getLast?).map SubSeg.end_time ≠ some 10 := by
  have h : fallback_segmentation [] 10 = [] := by
    simp [fallback_segmentation, pywords, chunkWords, group6,
      calculate_timings]
  refine ⟨h, ?_, ?_⟩ <;> simp [h]

/-- **C1** (amended: the script must contain at least one word).  For every
script containing at least one word and every positive total audio
duration, the fallback segmenter produces segments that are contiguous and
ordered (each segment's end time equals the next segment's start time),
whose first segment starts at time 0, whose last segment's end time equals
the given total duration exactly, and whose texts, split back into words
and concatenated in order, are exactly the script's words (no word
dropped). -/
theorem fallback_segmentation_correct (script : Str) (d : ℚ)
    (_hpos : 0 < d) (hw : pywords script ≠ []) :
    List.Chain' Contig (fallback_segmentation script d) ∧
    ((fallback_segmentation script d).head?).map SubSeg.start_time = some 0 ∧
    ((fallback_segmentation script d).getLast?).map SubSeg.end_time = some d ∧
    ((fallback_segmentation script d).map SubSeg.text).flatMap pywords
      = pywords script := by
  have hchunk := chunkWords_ne_nil (pywords script) hw
  unfold fallback_segmentation
  refine ⟨calculate_timings_chain _ _, calculate_timings_head_start _ _ hchunk,
    calculate_timings_getLast_end _ _ hchunk, ?_⟩
  rw [calculate_timings_map_text, chunkWords, List.flatMap_map,
    List.flatMap_map]
  rw [List.flatMap_congr (g := id) (fun g hg =>
    pywords_pystrip_joinSpace g (fun w hwg =>
      pywords_mem script w (group6_mem_mem _ g hg w hwg)))]
  rw [List.flatMap_id, group6_flatten]

/-- Witness for `fallback_segmentation_correct` on a concrete 8-word script
and duration 10. -/
theorem fallback_segmentation_correct_witness :
    List.Chain' Contig
      (fallback_segmentation "the quick brown fox jumps over lazy dogs".toList 10) ∧
    ((fallback_segmentation "the quick brown fox jumps over lazy dogs".toList
      10).head?).map SubSeg.start_time = some 0 ∧
    ((fallback_segmentation "the quick brown fox jumps over lazy dogs".toList
      10).getLast?).map SubSeg.end_time = some 10 ∧
    ((fallback_segmentation "the quick brown fox jumps over lazy dogs".toList
      10).map SubSeg.text).flatMap pywords
      = pywords "the quick brown fox jumps over lazy dogs".toList :=
  fallback_segmentation_correct
    "the quick brown fox jumps over lazy dogs".toList 10
    (by norm_num) (by simp +decide [pywords])

/-- **C10**: for every script containing no words (empty or
whitespace-only) and every audio duration, the fallback segmenter returns
the empty list of segments rather than raising an error. -/
theorem fallback_segmentation_no_words (script : Str) (d : ℚ)
    (h : pywords script = []) : fallback_segmentation script d = [] := by
  unfold fallback_segmentation
  rw [h]
  simp [chunkWords, group6, calculate_timings]

/-- Witness for `fallback_segmentation_no_words` on a whitespace-only
script. -/
theorem fallback_segmentation_no_words_witness :
    pywords "   ".toList = [] ∧ fallback_segmentation "   ".toList 7 = [] :=
  ⟨by simp +decide [pywords],
    fallback_segmentation_no_words "   ".toList 7 (by simp +decide [pywords])⟩

/-! ## Lemmas about dictionaries -/

lemma alookup_append {α : Type} (k : String) (l1 l2 : List (String × α)) :
    alookup k (l1 ++ l2) = (alookup k l1).or (alookup k l2) := by
  induction l1 with
  | nil => simp [alookup]
  | cons p rest ih =>
    obtain ⟨k', v⟩ := p
    by_cases h : k' = k
    · simp [alookup, h]
    · simp [alookup, h, ih]

lemma alookup_isSome_iff_mem {α : Type} (k : String)
    (l : List (String × α)) :
    (alookup k l).isSome ↔ k ∈ l.map Prod.fst := by
  induction l with
  | nil => simp [alookup]
  | cons p rest ih =>
    obtain ⟨k', v⟩ := p
    by_cases h : k' = k
    · simp [alookup, h]
    · simp [alookup, h, ih, Ne.symm h]

lemma alookup_mem {α : Type} {k : String} {l : List (String × α)} {v : α}
    (h : alookup k l = some v) : (k, v) ∈ l := by
  induction l with
  | nil => simp [alookup] at h
  | cons p rest ih =>
    obtain ⟨k', v'⟩ := p
    by_cases hk : k' = k
    · subst hk
      simp [alookup] at h
      simp [h]
    · simp [alookup, hk] at h
      simp [ih h]

lemma alookup_replaceVal_same (d : Dict) (k : String) (v : Val)
    (h : (alookup k d).isSome) :
    alookup k (replaceVal d k v) = some v := by
  induction d with
  | nil => simp [alookup] at h
  | cons p rest ih =>
    obtain ⟨k0, v0⟩ := p
    by_cases hk : k0 = k
    · subst hk
      simp [replaceVal, alookup]
    · have h' : (alookup k rest).isSome := by simpa [alookup, hk] using h
      simp [replaceVal, alookup, hk, ih h']

lemma alookup_replaceVal_other (d : Dict) (k k' : String) (v : Val)
    (h : k' ≠ k) :
    alookup k' (replaceVal d k v) = alookup k' d := by
  induction d with
  | nil => simp [replaceVal]
  | cons p rest ih =>
    obtain ⟨k0, v0⟩ := p
    by_cases hk : k0 = k
    · subst hk
      simp [replaceVal, alookup, Ne.symm h, ih]
    · by_cases hk' : k0 = k'
      · simp [replaceVal, alookup, hk, hk', h]
      · simp [replaceVal, alookup, hk, hk', ih]

lemma alookup_setItem_same (d : Dict) (k : String) (v : Val) :
    alookup k (setItem d k v) = some v := by
  rw [setItem]
  cases he : alookup k d with
  | none => simp [he, alookup_append, alookup]
  | some w => simp [he, alookup_replaceVal_same d k v (by simp [he])]

lemma alookup_setItem_other (d : Dict) (k k' : String) (v : Val)
    (h : k' ≠ k) : alookup k' (setItem d k v) = alookup k' d := by
  rw [setItem]
  cases he : alookup k d with
  | none => simp [he, alookup_append, alookup, Ne.symm h]
  | some w => simp [he, alookup_replaceVal_other d k k' v h]

lemma alookup_updateJobs_same (jid : String) (upd : Dict) :
    ∀ (jobs : List (String × Dict)),
      alookup jid (updateJobs jid upd jobs)
        = (alookup jid jobs).map (fun j => dictUpdate j upd)
  | [] => by simp [updateJobs, alookup]
  | (k, j) :: rest => by
    by_cases hk : k = jid
    · subst hk
      simp [updateJobs, alookup]
    · simp [updateJobs, alookup, hk, alookup_updateJobs_same jid upd rest]

lemma alookup_updateJobs_other (jid k' : String) (upd : Dict)
    (h : k' ≠ jid) : ∀ (jobs : List (String × Dict)),
      alookup k' (updateJobs jid upd jobs) = alookup k' jobs
  | [] => by simp [updateJobs]
  | (k, j) :: rest => by
    by_cases hk : k = jid
    · subst hk
      simp [updateJobs, alookup, Ne.symm h,
        alookup_updateJobs_other k k' upd h rest]
    · simp [updateJobs, alookup, hk,
        alookup_updateJobs_other jid k' upd h rest]

lemma updateJobs_map_fst (jid : String) (upd : Dict) :
    ∀ (jobs : List (String × Dict)),
      (updateJobs jid upd jobs).map Prod.fst = jobs.map Prod.fst
  | [] => by simp [updateJobs]
  | (k, j) :: rest => by
    by_cases hk : k = jid
    · subst hk
      simp [updateJobs, updateJobs_map_fst k upd rest]
    · simp [updateJobs, hk, updateJobs_map_fst jid upd rest]

lemma alookup_dictUpdate (d u : Dict) (k : String)
    (hu : (u.map Prod.fst).Nodup) :
    alookup k (dictUpdate d u) = (alookup k u).or (alookup k d) := by
  induction u generalizing d with
  | nil => simp [dictUpdate, alookup]
  | cons p rest ih =>
    obtain ⟨k0, v0⟩ := p
    simp only [List.map_cons, List.nodup_cons] at hu
    obtain ⟨hk0, hrest⟩ := hu
    have : dictUpdate d ((k0, v0) :: rest)
        = dictUpdate (setItem d k0 v0) rest := by
      simp [dictUpdate]
    rw [this, ih _ hrest]
    by_cases h : k = k0
    · subst h
      have : alookup k rest = none := by
        cases he : alookup k rest
        · rfl
        · exact absurd ((alookup_isSome_iff_mem k rest).mp (by simp [he]))
            hk0
      simp [this, alookup, alookup_setItem_same]
    · simp [alookup, Ne.symm h, alookup_setItem_other d k0 k v0 h]

/-! ## Claim C8 -/

lemma removeFirst_sublist (x : String) : ∀ (q : List String),
    (removeFirst x q).Sublist q
  | [] => by simp [removeFirst]
  | y :: ys => by
    by_cases h : y = x
    · simp only [removeFirst, h, if_pos rfl]
      exact List.sublist_cons_self x ys
    · simpa [removeFirst, h] using
        List.Sublist.cons₂ y (removeFirst_sublist x ys)

lemma removeFirst_eq_filter (x : String) : ∀ (q : List String), q.Nodup →
    removeFirst x q = q.filter (fun y => y ≠ x)
  | [] => by simp [removeFirst]
  | y :: ys => by
    intro h
    rw [List.nodup_cons] at h
    obtain ⟨hy, hys⟩ := h
    by_cases hx : y = x
    · subst hx
      rw [removeFirst, if_pos rfl, List.filter_cons_of_neg (by simp)]
      exact (List.filter_eq_self.mpr (fun a ha => by
        simp only [ne_eq, decide_eq_true_eq]
        intro e
        exact hy (e ▸ ha))).symm
    · rw [removeFirst, if_neg hx,
        List.filter_cons_of_pos (by simp [Ne.symm, hx]),
        removeFirst_eq_filter x ys hys]

lemma foldl_removeFirst_filter : ∀ (ids q : List String), q.Nodup →
    List.foldl (fun acc jid => removeFirst jid acc) q ids
      = q.filter (fun x => !ids.contains x)
  | [], q, _ => by simp
  | id :: ids', q, hq => by
    rw [List.foldl_cons, removeFirst_eq_filter id q hq,
      foldl_removeFirst_filter ids' _ ((List.filter_sublist q).nodup hq),
      List.filter_filter]
    apply List.filter_congr
    intro x _
    simp only [List.contains_cons, Bool.not_or, ne_eq]
    rcases em (x = id) with he | he <;> simp [he, Bool.and_comm]

lemma foldl_eraseJob_cons (k : String) (v : Dict) :
    ∀ (ids : List String) (rest : List (String × Dict)), k ∉ ids →
      List.foldl (fun js jid => eraseJob jid js) ((k, v) :: rest) ids
        = (k, v) :: List.foldl (fun js jid => eraseJob jid js) rest ids
  | [], rest, _ => by simp
  | id :: ids', rest, h => by
    have hk : k ≠ id := fun e => h (by simp [e])
    have hk' : k ∉ ids' := fun m => h (by simp [m])
    rw [List.foldl_cons, List.foldl_cons]
    simp only [eraseJob, hk, if_false]
    exact foldl_eraseJob_cons k v ids' (eraseJob id rest) hk'

lemma foldl_eraseJob_filter (P : (String × Dict) → Bool) :
    ∀ (jobs : List (String × Dict)), (jobs.map Prod.fst).Nodup →
      List.foldl (fun js jid => eraseJob jid js) jobs
        ((jobs.filter P).map Prod.fst)
      = jobs.filter (fun p => !P p)
  | [], _ => by simp
  | (k, v) :: rest, h => by
    simp only [List.map_cons, List.nodup_cons] at h
    obtain ⟨hk, hrest⟩ := h
    by_cases hP : P (k, v)
    · have hids : ((((k, v) :: rest).filter P).map Prod.fst)
          = k :: ((rest.filter P).map Prod.fst) := by
        rw [List.filter_cons_of_pos hP, List.map_cons]
      rw [hids]
      simp only [List.foldl_cons]
      have he : eraseJob k ((k, v) :: rest) = rest := by simp [eraseJob]
      rw [he, foldl_eraseJob_filter P rest hrest,
        List.filter_cons_of_neg (by simp [hP])]
    · have hids : ((((k, v) :: rest).filter P).map Prod.fst)
          = (rest.filter P).map Prod.fst := by
        rw [List.filter_cons_of_neg hP]
    -- the head pair survives: its key is erased by none of the ids
      have hnotin : k ∉ (rest.filter P).map Prod.fst := by
        intro hmem
        apply hk
        obtain ⟨p, hp, he⟩ := List.mem_map.mp hmem
        exact List.mem_map.mpr ⟨p, (List.mem_filter.mp hp).1, he⟩
      rw [hids, foldl_eraseJob_cons k v _ rest hnotin,
        foldl_eraseJob_filter P rest hrest,
        List.filter_cons_of_pos (by simp [hP])]

/-- **C8**: for every store with unique record keys and duplicate-free
Queue Index (true of every reachable store) and every cutoff, cleanup
removes exactly the jobs in terminal status (`completed`/`failed`) whose
completion timestamp strictly predates the cutoff — deleting each from
both the record map and the Queue Index and returning the count removed —
while every other job, including all queued and processing jobs, is left
with its record, and its Index entry, untouched. -/
theorem cleanup_old_jobs_spec (st : QueueState) (cutoff : ℕ)
    (hkeys : (st.jobs.map Prod.fst).Nodup) (hq : st.queue.Nodup) :
    (cleanup_old_jobs st cutoff).2.jobs
      = st.jobs.filter (fun p => !removableAt cutoff p.2) ∧
    (cleanup_old_jobs st cutoff).2.queue
      = st.queue.filter (fun x =>
          !((st.jobs.filter (fun p => removableAt cutoff p.2)).map
            Prod.fst).contains x) ∧
    (cleanup_old_jobs st cutoff).1
      = ((st.jobs.filter (fun p => removableAt cutoff p.2)).map
          Prod.fst).length :=
  ⟨foldl_eraseJob_filter _ st.jobs hkeys,
   foldl_removeFirst_filter _ st.queue hq, rfl⟩

/-- Witness for `cleanup_old_jobs_spec`: two terminal jobs completed at
instants 1 and 9 and one queued job, cutoff 5 — exactly the old terminal
job is removed from both structures and the count is 1. -/
theorem cleanup_old_jobs_spec_witness :
    (cleanup_old_jobs ⟨[("a", [("status", Val.vstr "completed"),
        ("completed_at", Val.vtime 1)]),
      ("b", [("status", Val.vstr "failed"),
        ("completed_at", Val.vtime 9)]),
      ("c", [("status", Val.vstr "queued"),
        ("completed_at", Val.vnull)])], ["a", "b", "c"]⟩ 5).2.jobs
      = [("b", [("status", Val.vstr "failed"),
          ("completed_at", Val.vtime 9)]),
         ("c", [("status", Val.vstr "queued"),
          ("completed_at", Val.vnull)])] ∧
    (cleanup_old_jobs ⟨[("a", [("status", Val.vstr "completed"),
        ("completed_at", Val.vtime 1)]),
      ("b", [("status", Val.vstr "failed"),
        ("completed_at", Val.vtime 9)]),
      ("c", [("status", Val.vstr "queued"),
        ("completed_at", Val.vnull)])], ["a", "b", "c"]⟩ 5).2.queue
      = ["b", "c"] ∧
    (cleanup_old_jobs ⟨[("a", [("status", Val.vstr "completed"),
        ("completed_at", Val.vtime 1)]),
      ("b", [("status", Val.vstr "failed"),
        ("completed_at", Val.vtime 9)]),
      ("c", [("status", Val.vstr "queued"),
        ("completed_at", Val.vnull)])], ["a", "b", "c"]⟩ 5).1 = 1 := by
  have h := cleanup_old_jobs_spec ⟨[("a", [("status", Val.vstr "completed"),
      ("completed_at", Val.vtime 1)]),
    ("b", [("status", Val.vstr "failed"),
      ("completed_at", Val.vtime 9)]),
    ("c", [("status", Val.vstr "queued"),
      ("completed_at", Val.vnull)])], ["a", "b", "c"]⟩ 5
    (by decide) (by decide)
  refine ⟨?_, ?_, ?_⟩
  · rw [h.1]; decide
  · rw [h.2.1]; decide
  · rw [h.2.2]; decide

lemma invStrong_invClaim (st : QueueState) (h : InvStrong st) :
    InvClaim st :=
  ⟨h.2.1, fun p hp _ => h.2.2 p hp⟩

lemma invStrong_queue_nodup (st : QueueState) (h : InvStrong st) :
    st.queue.Nodup := by
  obtain ⟨hk, h1, h2⟩ := h
  rw [List.nodup_iff_count_le_one]
  intro a
  by_cases ha : a ∈ st.queue
  · have hs := h1 a ha
    cases he : alookup a st.jobs with
    | none => rw [he] at hs; simp at hs
    | some j => exact le_of_eq (h2 (a, j) (alookup_mem he))
  · simp [List.count_eq_zero.mpr ha]

lemma add_job_preserves_invStrong (st : QueueState) (h : InvStrong st)
    (vdata : List (String × String)) (newId : String) (created : ℕ)
    (hfresh : alookup newId st.jobs = none) :
    InvStrong (add_job st vdata newId created).2 := by
  obtain ⟨hk, h1, h2⟩ := h
  have hnotin : newId ∉ st.jobs.map Prod.fst := by
    intro hm
    have := (alookup_isSome_iff_mem newId st.jobs).mpr hm
    rw [hfresh] at this
    simp at this
  have hnotq : newId ∉ st.queue := by
    intro hm
    have := h1 newId hm
    rw [hfresh] at this
    simp at this
  refine ⟨?_, ?_, ?_⟩
  · simp only [add_job, List.map_append, List.map_cons, List.map_nil]
    rw [List.nodup_append]
    refine ⟨hk, by simp, ?_⟩
    intro a ha hb
    have hab : a = newId := by simpa using hb
    exact hnotin (hab ▸ ha)
  · intro id hid
    simp only [add_job] at hid ⊢
    rw [alookup_append]
    rcases List.mem_append.mp hid with hold | hnew
    · cases he : alookup id st.jobs with
      | none => have := h1 id hold; rw [he] at this; simp at this
      | some j => simp
    · have : id = newId := by simpa using hnew
      subst this
      rw [hfresh]
      simp [alookup]
  · intro p hp
    simp only [add_job] at hp ⊢
    rw [List.count_append]
    rcases List.mem_append.mp hp with hold | hnew
    · have hne : p.1 ≠ newId := by
        intro e
        exact hnotin (e ▸ List.mem_map_of_mem Prod.fst hold)
      rw [h2 p hold]
      simp [List.count_cons, hne]
    · have : p = (newId, newJobRecord newId vdata created) := by
        simpa using hnew
      subst this
      rw [List.count_eq_zero.mpr hnotq]
      simp [List.count_cons]

lemma update_job_preserves_invStrong (st : QueueState) (h : InvStrong st)
    (jid : String) (upd : Dict) :
    InvStrong (update_job st jid upd).2 := by
  obtain ⟨hk, h1, h2⟩ := h
  unfold update_job
  cases he : (alookup jid st.jobs).isSome with
  | false =>
    simp only [he, Bool.false_eq_true, if_false]
    exact ⟨hk, h1, h2⟩
  | true =>
    simp only [he, if_true]
    refine ⟨?_, ?_, ?_⟩
    · rw [updateJobs_map_fst]
      exact hk
    · intro id hid
      by_cases hij : id = jid
      · subst hij
        rw [alookup_updateJobs_same]
        cases hv : alookup id st.jobs with
        | none => rw [hv] at he; simp at he
        | some j => simp
      · rw [alookup_updateJobs_other jid id upd hij]
        exact h1 id hid
    · intro p hp
      have hkey : p.1 ∈ st.jobs.map Prod.fst := by
        rw [← updateJobs_map_fst jid upd st.jobs]
        exact List.mem_map_of_mem Prod.fst hp
      obtain ⟨q, hq, he2⟩ := List.mem_map.mp hkey
      exact he2 ▸ h2 q hq

lemma alookup_filter_of_keep {P : (String × Dict) → Bool} :
    ∀ (jobs : List (String × Dict)) {k : String} {j : Dict},
      alookup k jobs = some j → P (k, j) = true →
      alookup k (jobs.filter P) = some j
  | [], k, j, hl, _ => by simp [alookup] at hl
  | (k0, v0) :: rest, k, j, hl, hP => by
    by_cases hk : k0 = k
    · subst hk
      rw [alookup, if_pos rfl] at hl
      injection hl with hl
      subst hl
      rw [List.filter_cons_of_pos hP, alookup, if_pos rfl]
    · rw [alookup, if_neg hk] at hl
      by_cases hh : P (k0, v0)
      · rw [List.filter_cons_of_pos hh, alookup, if_neg hk]
        exact alookup_filter_of_keep rest hl hP
      · rw [List.filter_cons_of_neg hh]
        exact alookup_filter_of_keep rest hl hP

lemma nodup_keys_pair_eq : ∀ (jobs : List (String × Dict)),
    (jobs.map Prod.fst).Nodup → ∀ {p q : String × Dict},
      p ∈ jobs → q ∈ jobs → p.1 = q.1 → p = q
  | [], _, p, q, hp, _, _ => by simp at hp
  | a :: rest, h, p, q, hp, hq, he => by
    simp only [List.map_cons, List.nodup_cons] at h
    obtain ⟨ha, hrest⟩ := h
    rcases List.mem_cons.mp hp with hpa | hp'
    · rcases List.mem_cons.mp hq with hqa | hq'
      · rw [hpa, hqa]
      · exfalso
        apply ha
        have hm : q.1 ∈ rest.map Prod.fst := List.mem_map_of_mem Prod.fst hq'
        rwa [← he, hpa] at hm
    · rcases List.mem_cons.mp hq with hqa | hq'
      · exfalso
        apply ha
        have hm : p.1 ∈ rest.map Prod.fst := List.mem_map_of_mem Prod.fst hp'
        rwa [he, hqa] at hm
      · exact nodup_keys_pair_eq rest hrest hp' hq' he

lemma cleanup_preserves_invStrong (st : QueueState) (h : InvStrong st)
    (cutoff : ℕ) : InvStrong (cleanup_old_jobs st cutoff).2 := by
  have hjobs : (cleanup_old_jobs st cutoff).2.jobs
      = st.jobs.filter (fun p => !removableAt cutoff p.2) :=
    foldl_eraseJob_filter _ st.jobs h.1
  have hqueue : (cleanup_old_jobs st cutoff).2.queue
      = st.queue.filter (fun x =>
          !((st.jobs.filter (fun p => removableAt cutoff p.2)).map
            Prod.fst).contains x) :=
    foldl_removeFirst_filter _ st.queue (invStrong_queue_nodup st h)
  obtain ⟨hk, h1, h2⟩ := h
  refine ⟨?_, ?_, ?_⟩
  · rw [hjobs]
    exact ((List.filter_sublist st.jobs).map Prod.fst).nodup hk
  · intro id hid
    rw [hqueue] at hid
    rw [hjobs]
    obtain ⟨hidq, hcond⟩ := List.mem_filter.mp hid
    cases he : alookup id st.jobs with
    | none => have := h1 id hidq; rw [he] at this; simp at this
    | some j =>
      have hjmem := alookup_mem he
      have hnr : removableAt cutoff j = false := by
        by_contra hcontra
        rw [Bool.not_eq_false] at hcontra
        have hmem : id ∈ (st.jobs.filter
            (fun p => removableAt cutoff p.2)).map Prod.fst :=
          List.mem_map.mpr ⟨(id, j),
            List.mem_filter.mpr ⟨hjmem, hcontra⟩, rfl⟩
        simp [hmem] at hcond
      rw [alookup_filter_of_keep st.jobs he (by simp [hnr])]
      simp
  · intro p hp
    rw [hjobs] at hp
    rw [hqueue]
    obtain ⟨hpmem, hpcond⟩ := List.mem_filter.mp hp
    have hnotrem : p.1 ∉ (st.jobs.filter
        (fun q => removableAt cutoff q.2)).map Prod.fst := by
      intro hmem
      obtain ⟨q, hq, he⟩ := List.mem_map.mp hmem
      obtain ⟨hqmem, hqrem⟩ := List.mem_filter.mp hq
      have hqp : q = p := nodup_keys_pair_eq st.jobs hk hqmem hpmem he
      rw [hqp] at hqrem
      simp [hqrem] at hpcond
    rw [List.count_filter (by simp [hnotrem])]
    exact h2 p hpmem

/-- **C7** (counterexample to the claim as stated): the claimed invariant
alone is not preserved by `update_job` — from a store satisfying it in
which a `processing` job's id is absent from the Queue Index, merging
`{status: queued}` back into that job yields a queued job that appears
zero times in the Index. -/
theorem update_job_invariant_counterexample :
    InvClaim ⟨[("a", [("status", Val.vstr "processing")])], []⟩ ∧
    (update_job ⟨[("a", [("status", Val.vstr "processing")])], []⟩ "a"
      [("status", Val.vstr "queued")]).2
      = ⟨[("a", [("status", Val.vstr "queued")])], []⟩ ∧
    ¬ InvClaim ⟨[("a", [("status", Val.vstr "queued")])], []⟩ := by
  refine ⟨by decide, rfl, by decide⟩

/-- **C7** (amended: from any store satisfying the strengthened inductive
invariant — unique record keys, every Index entry has a record, every
record's id occurs in the Index exactly once — every queue operation
yields a store satisfying the strengthened invariant again, and hence
the claimed invariant: every Index identifier has a record, and every
queued job appears in the Index exactly once.  `add_job` needs its fresh
identifier, as the source's `uuid4()` provides; the read operations do
not change the store at all.) -/
theorem queue_ops_preserve_invariant (st : QueueState) (hInv : InvStrong st)
    (vdata : List (String × String)) (newId : String) (created : ℕ)
    (hfresh : alookup newId st.jobs = none)
    (jid : String) (upd : Dict) (cutoff : ℕ) :
    (InvStrong (add_job st vdata newId created).2 ∧
      InvClaim (add_job st vdata newId created).2) ∧
    (InvStrong (update_job st jid upd).2 ∧
      InvClaim (update_job st jid upd).2) ∧
    (InvStrong (cleanup_old_jobs st cutoff).2 ∧
      InvClaim (cleanup_old_jobs st cutoff).2) ∧
    (get_next_job st).2 = st ∧ (get_job st jid).2 = st ∧
    (get_queued_jobs st).2 = st ∧
    InvClaim st := by
  have hadd := add_job_preserves_invStrong st hInv vdata newId created hfresh
  have hupd := update_job_preserves_invStrong st hInv jid upd
  have hcl := cleanup_preserves_invStrong st hInv cutoff
  exact ⟨⟨hadd, invStrong_invClaim _ hadd⟩,
    ⟨hupd, invStrong_invClaim _ hupd⟩,
    ⟨hcl, invStrong_invClaim _ hcl⟩,
    rfl, rfl, rfl, invStrong_invClaim _ hInv⟩

/-- Witness for `queue_ops_preserve_invariant`: a one-job store satisfying
the strengthened invariant, a fresh id for `add_job`, a status update and
a cleanup cutoff. -/
theorem queue_ops_preserve_invariant_witness :
    InvClaim (add_job ⟨[("a", [("status", Val.vstr "queued")])], ["a"]⟩
      [("title", "t")] "b" 4).2 ∧
    InvClaim (update_job ⟨[("a", [("status", Val.vstr "queued")])], ["a"]⟩
      "a" [("status", Val.vstr "processing")]).2 ∧
    InvClaim (cleanup_old_jobs
      ⟨[("a", [("status", Val.vstr "queued")])], ["a"]⟩ 9).2 := by
  have h := queue_ops_preserve_invariant
    ⟨[("a", [("status", Val.vstr "queued")])], ["a"]⟩
    (by decide)
    [("title", "t")] "b" 4 (by decide)
    "a" [("status", Val.vstr "processing")] 9
  exact ⟨h.1.2, h.2.1.2, h.2.2.1.2⟩

/-! ## Claim C2 -/

lemma create_placeholder_ok (i : ℕ) (fmt : String)
    (h : (alookup fmt VIDEO_FORMATS).isSome = true) :
    create_placeholder i fmt
      = .ok ("placeholder_" ++ toString i ++ ".png") := by
  unfold create_placeholder
  cases he : alookup fmt VIDEO_FORMATS with
  | none => rw [he] at h; simp at h
  | some _ => simp

theorem genImagesFrom_spec {P : Type} (gemini : Option (P → Option String))
    (dalle : P → Option String) (fmt : String)
    (hfmt : (alookup fmt VIDEO_FORMATS).isSome = true) :
    ∀ (prompts : List P) (i0 : ℕ),
      ∃ paths, genImagesFrom gemini dalle fmt i0 prompts = .ok paths ∧
        paths.length = prompts.length ∧
        ∀ i : ℕ, paths[i]?
          = (prompts[i]?).map (fun p => imageFor gemini dalle (i0 + i) p)
  | [], i0 => ⟨[], by simp [genImagesFrom], by simp, by simp⟩
  | p :: rest, i0 => by
    obtain ⟨paths, hok, hlen, hidx⟩ :=
      genImagesFrom_spec gemini dalle fmt hfmt rest (i0 + 1)
    cases hp : providerImage gemini dalle p with
    | some path =>
      refine ⟨path :: paths, by simp [genImagesFrom, hp, hok, Except.map],
        by simp [hlen], fun i => ?_⟩
      cases i with
      | zero => simp [imageFor, hp]
      | succ n =>
        have harith : i0 + 1 + n = i0 + (n + 1) := by omega
        simpa [harith] using hidx n
    | none =>
      refine ⟨("placeholder_" ++ toString i0 ++ ".png") :: paths,
        by simp [genImagesFrom, hp, create_placeholder_ok i0 fmt hfmt, hok,
          Except.map],
        by simp [hlen], fun i => ?_⟩
      cases i with
      | zero => simp [imageFor, hp]
      | succ n =>
        have harith : i0 + 1 + n = i0 + (n + 1) := by omega
        simpa [harith] using hidx n

lemma genImagesFrom_allfail {P : Type} (fmt : String)
    (hfmt : (alookup fmt VIDEO_FORMATS).isSome = true) :
    ∀ (prompts : List P) (i0 : ℕ),
      genImagesFrom (P := P) (some (fun _ => none)) (fun _ => none)
        fmt i0 prompts
      = .ok ((List.range prompts.length).map
          (fun i => "placeholder_" ++ toString (i0 + i) ++ ".png"))
  | [], i0 => by simp [genImagesFrom]
  | p :: rest, i0 => by
    have hrec := genImagesFrom_allfail (P := P) fmt hfmt rest (i0 + 1)
    simp only [genImagesFrom, providerImage,
      create_placeholder_ok i0 fmt hfmt, hrec, Except.map, List.length_cons]
    congr 1
    rw [List.range_succ_eq_map, List.map_cons, List.map_map]
    simp only [List.cons.injEq]
    refine ⟨by simp, List.map_congr_left ?_⟩
    intro a _
    have h2 : i0 + 1 + a = i0 + (a + 1) := by omega
    simp [Function.comp, h2, Nat.succ_eq_add_one]

/-- **C2** (counterexample to the claim as stated, which quantifies over
every video format): with a format outside the configured enumeration and
both providers failing, the placeholder path itself raises `KeyError`
(the format is looked up in `config.VIDEO_FORMATS`), so `generate_images`
raises instead of returning one path per prompt. -/
theorem generate_images_unknown_format_counterexample :
    alookup "4:3" VIDEO_FORMATS = none ∧
    generate_images (P := Unit) (some (fun _ => none)) (fun _ => none)
      [()] "4:3" = .error "KeyError" := by
  exact ⟨rfl, rfl⟩

/-- **C2** (amended: the video format is drawn from the configured
`VIDEO_FORMATS` enumeration).  For every list of N prompts,
`generate_images` returns exactly N image paths, the i-th produced from
the i-th prompt by the provider chain (order preserved); and when every
provider call fails for every prompt, the result is exactly the N
generated placeholder paths in prompt order. -/
theorem generate_images_spec {P : Type} (gemini : Option (P → Option String))
    (dalle : P → Option String) (prompts : List P) (video_format : String)
    (hfmt : (alookup video_format VIDEO_FORMATS).isSome = true) :
    (∃ paths, generate_images gemini dalle prompts video_format = .ok paths ∧
      paths.length = prompts.length ∧
      ∀ i : ℕ, paths[i]?
        = (prompts[i]?).map (fun p => imageFor gemini dalle (i + 1) p)) ∧
    generate_images (P := P) (some (fun _ => none)) (fun _ => none)
      prompts video_format
      = .ok ((List.range prompts.length).map
          (fun i => "placeholder_" ++ toString (i + 1) ++ ".png")) := by
  constructor
  · obtain ⟨paths, h1, h2, h3⟩ :=
      genImagesFrom_spec gemini dalle video_format hfmt prompts 1
    refine ⟨paths, h1, h2, fun i => ?_⟩
    rw [h3 i, Nat.add_comm 1 i]
  · rw [generate_images, genImagesFrom_allfail video_format hfmt]
    congr 1
    apply List.map_congr_left
    intro a _
    rw [Nat.add_comm 1 a]

/-- Witness for `generate_images_spec`: two prompts, the configured format
`16:9`, and a second provider that always succeeds. -/
theorem generate_images_spec_witness :
    (∃ paths, generate_images (P := Unit) none (fun _ => some "img.png")
        [(), ()] "16:9" = .ok paths ∧
      paths.length = [(), ()].length ∧
      ∀ i : ℕ, paths[i]?
        = ([(), ()][i]?).map
            (fun p => imageFor (P := Unit) none (fun _ => some "img.png")
              (i + 1) p)) ∧
    generate_images (P := Unit) (some (fun _ => none)) (fun _ => none)
      [(), ()] "16:9"
      = .ok ((List.range [(), ()].length).map
          (fun i => "placeholder_" ++ toString (i + 1) ++ ".png")) :=
  generate_images_spec (P := Unit) none (fun _ => some "img.png")
    [(), ()] "16:9" (by decide)

/-! ## Claim C4 -/

/-- **C4** (counterexample to the claim as stated): a request whose format
and style lie outside the configured enumerations but whose script is
short is accepted by the submission handler — a job is created and its id
returned — because the handler validates only the script length. -/
theorem create_video_unknown_format_counterexample :
    alookup "4:3" VIDEO_FORMATS = none ∧
    VIDEO_STYLES.contains "Vaporwave" = false ∧
    (create_video ⟨[], []⟩ ⟨"t", "c", "4:3", "Vaporwave", "Sarah", "hi",
      "", ""⟩ "job-1" 0).1 = .ok "job-1" ∧
    (create_video ⟨[], []⟩ ⟨"t", "c", "4:3", "Vaporwave", "Sarah", "hi",
      "", ""⟩ "job-1" 0).2.jobs
      = [("job-1", newJobRecord "job-1"
          (videoDataDict ⟨"t", "c", "4:3", "Vaporwave", "Sarah", "hi",
            "", ""⟩) 0)] := by
  refine ⟨rfl, by decide, ?_, ?_⟩ <;> rfl

/-- **C4** (amended: only the script length is validated at submission;
format and style are not checked).  The handler rejects — with a
validation error, an unchanged job store and no job id — exactly those
requests whose script exceeds the configured maximum; every other
request, regardless of its format or style, creates exactly one new job
appended to the record map and the Queue Index. -/
theorem create_video_spec (st : QueueState) (r : VideoRequest)
    (job_id : String) (now : ℕ) :
    ((create_video st r job_id now).1.isOk
      ↔ r.script.length ≤ MAX_SCRIPT_LENGTH) ∧
    (r.script.length > MAX_SCRIPT_LENGTH →
      (create_video st r job_id now).2 = st) ∧
    (r.script.length ≤ MAX_SCRIPT_LENGTH →
      (create_video st r job_id now).1 = .ok job_id ∧
      (create_video st r job_id now).2.jobs
        = st.jobs ++ [(job_id, newJobRecord job_id (videoDataDict r) now)] ∧
      (create_video st r job_id now).2.queue = st.queue ++ [job_id]) := by
  unfold create_video
  by_cases h : r.script.length > MAX_SCRIPT_LENGTH
  · simp [h, Except.isOk, Except.toBool, add_job]
  · simp [h, Except.isOk, Except.toBool, add_job]
    omega

/-- Witness for `create_video_spec`: a short-script request on the empty
store is accepted and creates exactly one queued job. -/
theorem create_video_spec_witness :
    (create_video ⟨[], []⟩ ⟨"t", "c", "16:9", "Anime", "Sarah", "hello",
      "", ""⟩ "j1" 3).1 = .ok "j1" ∧
    (create_video ⟨[], []⟩ ⟨"t", "c", "16:9", "Anime", "Sarah", "hello",
      "", ""⟩ "j1" 3).2.jobs
      = [("j1", newJobRecord "j1" (videoDataDict ⟨"t", "c", "16:9",
          "Anime", "Sarah", "hello", "", ""⟩) 3)] ∧
    (create_video ⟨[], []⟩ ⟨"t", "c", "16:9", "Anime", "Sarah", "hello",
      "", ""⟩ "j1" 3).2.queue = ["j1"] := by
  have h := (create_video_spec ⟨[], []⟩ ⟨"t", "c", "16:9", "Anime",
    "Sarah", "hello", "", ""⟩ "j1" 3).2.2 (by decide)
  simpa using h

/-! ## Claim C9 -/

lemma update_job_ok (st : QueueState) (jid : String) (upd : Dict)
    (j : Dict) (hj : alookup jid st.jobs = some j) :
    update_job st jid upd
      = (.ok (), ⟨updateJobs jid upd st.jobs, st.queue⟩) := by
  unfold update_job
  simp [hj]

/-- **C9**: for every job whose pipeline run raises, `process_job`
catches the exception, transitions the job to status `failed` with the
error trace attached and a completion timestamp set, leaves the job's
`result` null, and returns normally (no exception escapes to the worker
loop, which therefore continues polling). -/
theorem process_job_pipeline_failure
    (pipe : List (String × String) → Except String Val)
    (st : QueueState) (job j : Dict) (vd : List (String × String))
    (jid e : String) (tstart tend : ℕ)
    (hid : alookup "id" job = some (Val.vstr jid))
    (hvd : alookup "video_data" job = some (Val.vdict vd))
    (hpipe : pipe vd = .error e)
    (hj : alookup jid st.jobs = some j)
    (hres : alookup "result" j = some Val.vnull) :
    ∃ stF j', process_job pipe job tstart tend st = Except.ok stF ∧
      alookup jid stF.jobs = some j' ∧
      alookup "status" j' = some (Val.vstr "failed") ∧
      alookup "error" j' = some (Val.vstr e) ∧
      alookup "completed_at" j' = some (Val.vtime tend) ∧
      alookup "result" j' = some Val.vnull := by
  have h1 := update_job_ok st jid (processingUpdates tstart) j hj
  have hj1 : alookup jid (updateJobs jid (processingUpdates tstart) st.jobs)
      = some (dictUpdate j (processingUpdates tstart)) := by
    rw [alookup_updateJobs_same, hj]
    rfl
  have h2 := update_job_ok ⟨updateJobs jid (processingUpdates tstart)
    st.jobs, st.queue⟩ jid narrationUpdates _ hj1
  have hj2 : alookup jid (updateJobs jid narrationUpdates
      (updateJobs jid (processingUpdates tstart) st.jobs))
      = some (dictUpdate (dictUpdate j (processingUpdates tstart))
          narrationUpdates) := by
    rw [alookup_updateJobs_same, hj1]
    rfl
  have h3 := update_job_ok ⟨updateJobs jid narrationUpdates
    (updateJobs jid (processingUpdates tstart) st.jobs), st.queue⟩
    jid (failedUpdates tend e) _ hj2
  have hj3 : alookup jid (updateJobs jid (failedUpdates tend e)
      (updateJobs jid narrationUpdates
        (updateJobs jid (processingUpdates tstart) st.jobs)))
      = some (dictUpdate (dictUpdate (dictUpdate j
          (processingUpdates tstart)) narrationUpdates)
          (failedUpdates tend e)) := by
    rw [alookup_updateJobs_same, hj2]
    rfl
  have hnf : ((failedUpdates tend e).map Prod.fst).Nodup := by
    rw [show (failedUpdates tend e).map Prod.fst
      = ["status", "message", "completed_at", "error"] from rfl]
    decide
  have hn2 : (narrationUpdates.map Prod.fst).Nodup := by decide
  have hn1 : ((processingUpdates tstart).map Prod.fst).Nodup := by
    rw [show (processingUpdates tstart).map Prod.fst
      = ["status", "progress", "message", "started_at"] from rfl]
    decide
  refine ⟨⟨updateJobs jid (failedUpdates tend e)
    (updateJobs jid narrationUpdates
      (updateJobs jid (processingUpdates tstart) st.jobs)), st.queue⟩,
    dictUpdate (dictUpdate (dictUpdate j (processingUpdates tstart))
      narrationUpdates) (failedUpdates tend e),
    ?_, hj3, ?_, ?_, ?_, ?_⟩
  · unfold process_job processJobHandler
    rw [hid]
    simp only [h1, hvd, hpipe, h2, h3]
  · rw [alookup_dictUpdate _ _ _ hnf]
    rfl
  · rw [alookup_dictUpdate _ _ _ hnf]
    rfl
  · rw [alookup_dictUpdate _ _ _ hnf]
    rfl
  · rw [alookup_dictUpdate _ _ _ hnf,
      show alookup "result" (failedUpdates tend e) = none from rfl,
      alookup_dictUpdate _ _ _ hn2,
      show alookup "result" narrationUpdates = none from rfl,
      alookup_dictUpdate _ _ _ hn1,
      show alookup "result" (processingUpdates tstart) = none from rfl,
      hres]
    rfl

/-- Witness for `process_job_pipeline_failure`: a concrete one-job store
and a pipeline that always raises. -/
theorem process_job_pipeline_failure_witness :
    ∃ stF j', process_job (fun _ => Except.error "boom")
      [("id", Val.vstr "a"), ("video_data", Val.vdict [("title", "t")])]
      2 7 ⟨[("a", newJobRecord "a" [("title", "t")] 1)], ["a"]⟩
      = Except.ok stF ∧
      alookup "a" stF.jobs = some j' ∧
      alookup "status" j' = some (Val.vstr "failed") ∧
      alookup "error" j' = some (Val.vstr "boom") ∧
      alookup "completed_at" j' = some (Val.vtime 7) ∧
      alookup "result" j' = some Val.vnull :=
  process_job_pipeline_failure (fun _ => Except.error "boom")
    ⟨[("a", newJobRecord "a" [("title", "t")] 1)], ["a"]⟩
    [("id", Val.vstr "a"), ("video_data", Val.vdict [("title", "t")])]
    (newJobRecord "a" [("title", "t")] 1) [("title", "t")] "a" "boom" 2 7
    rfl rfl rfl rfl rfl

/-! ## Claim C3 -/

/-- **C3** (code bug): the default voice substituted for an unrecognized
voice name is `'Zara'`, but `'Zara'` is not a key of the configured
`VOICE_TYPES` map, so the ElevenLabs-path lookup `self.voices['Zara']`
raises `KeyError` (`none` here) instead of succeeding — e.g. for the
requested voice name `"Nonexistent"`. -/
theorem elevenLabsVoiceId_default_missing :
    alookup "Zara" VOICE_TYPES = none ∧
    alookup "Nonexistent" VOICE_TYPES = none ∧
    elevenLabsVoiceId "Nonexistent" = none := by decide

lemma getNext_eq_spec (jobs : List (String × Dict)) :
    ∀ (q : List String),
      getNext jobs q = ((q.filterMap (fun id => alookup id jobs)).filter
        (fun j => alookup "status" j = some (Val.vstr "queued"))).head?
  | [] => by simp [getNext]
  | id :: rest => by
    rw [getNext]
    cases h : alookup id jobs with
    | none => simp [List.filterMap_cons, h, getNext_eq_spec jobs rest]
    | some job =>
      by_cases hs : alookup "status" job = some (Val.vstr "queued")
      · simp [List.filterMap_cons, h, List.filter_cons, hs]
      · simp [List.filterMap_cons, h, List.filter_cons, hs,
          getNext_eq_spec jobs rest]

/-- **C5**: `get_next_job` returns the first job in Queue Index order
whose record exists and has status `queued` (`none` when no such job
exists), and leaves the persisted queue state — every job record and the
Queue Index — unchanged (the source performs no save). -/
theorem get_next_job_spec (st : QueueState) :
    (get_next_job st).1 = specNextQueued st ∧ (get_next_job st).2 = st :=
  ⟨getNext_eq_spec st.jobs st.queue, rfl⟩

/-! ## Claim C6 -/

/-- **C6**: `update_job` fails (raises `ValueError`) exactly when the
given job id is not a key of the record map; when it fails, the persisted
state is unchanged; when it succeeds, the named record becomes its old
value merged (Python `dict.update`) with the given fields, while every
other record and the Queue Index are unchanged. -/
theorem update_job_spec (st : QueueState) (jid : String) (upd : Dict) :
    ((update_job st jid upd).1.isOk = (alookup jid st.jobs).isSome) ∧
    ((alookup jid st.jobs).isSome = false →
      (update_job st jid upd).2 = st) ∧
    (alookup jid (update_job st jid upd).2.jobs
      = (alookup jid st.jobs).map (fun j => dictUpdate j upd)) ∧
    (∀ k, k ≠ jid →
      alookup k (update_job st jid upd).2.jobs = alookup k st.jobs) ∧
    (update_job st jid upd).2.queue = st.queue := by
  unfold update_job
  cases he : (alookup jid st.jobs).isSome with
  | false =>
    refine ⟨by simp [he, Except.isOk, Except.toBool], by simp [he], ?_, ?_,
      by simp [he]⟩
    · simp only [he, Bool.false_eq_true, if_false]
      cases hv : alookup jid st.jobs with
      | none => simp
      | some j => rw [hv] at he; simp at he
    · intro k hk
      simp [he]
  | true =>
    refine ⟨by simp [he, Except.isOk, Except.toBool], by simp [he], ?_, ?_,
      by simp [he]⟩
    · simp only [he, if_true]
      exact alookup_updateJobs_same jid upd st.jobs
    · intro k hk
      simp only [he, if_true]
      exact alookup_updateJobs_other jid k upd hk st.jobs

/-- Witness for `update_job_spec`: a concrete store with one queued job,
updated to `processing`; the merged record, the untouched sibling record
and the untouched Queue Index are computed explicitly, and the
missing-id hypotheses of the statement are discharged on the same
concrete store. -/
theorem update_job_spec_witness :
    (update_job ⟨[("a", [("status", Val.vstr "queued")]),
                  ("b", [("status", Val.vstr "queued")])], ["a", "b"]⟩
      "a" [("status", Val.vstr "processing")]).1.isOk = true ∧
    alookup "a" (update_job ⟨[("a", [("status", Val.vstr "queued")]),
                  ("b", [("status", Val.vstr "queued")])], ["a", "b"]⟩
      "a" [("status", Val.vstr "processing")]).2.jobs
      = some [("status", Val.vstr "processing")] ∧
    alookup "b" (update_job ⟨[("a", [("status", Val.vstr "queued")]),
                  ("b", [("status", Val.vstr "queued")])], ["a", "b"]⟩
      "a" [("status", Val.vstr "processing")]).2.jobs
      = some [("status", Val.vstr "queued")] ∧
    (update_job ⟨[("a", [("status", Val.vstr "queued")]),
                  ("b", [("status", Val.vstr "queued")])], ["a", "b"]⟩
      "a" [("status", Val.vstr "processing")]).2.queue = ["a", "b"] ∧
    (update_job ⟨[("a", [("status", Val.vstr "queued")]),
                  ("b", [("status", Val.vstr "queued")])], ["a", "b"]⟩
      "missing" [("status", Val.vstr "processing")]).2
      = ⟨[("a", [("status", Val.vstr "queued")]),
          ("b", [("status", Val.vstr "queued")])], ["a", "b"]⟩ := by
  have h1 := update_job_spec ⟨[("a", [("status", Val.vstr "queued")]),
    ("b", [("status", Val.vstr "queued")])], ["a", "b"]⟩
    "a" [("status", Val.vstr "processing")]
  have h2 := update_job_spec ⟨[("a", [("status", Val.vstr "queued")]),
    ("b", [("status", Val.vstr "queued")])], ["a", "b"]⟩
    "missing" [("status", Val.vstr "processing")]
  refine ⟨by rw [h1.1]; decide, ?_, ?_, h1.2.2.2.2, h2.2.1 (by decide)⟩
  · rw [h1.2.2.1]; decide
  · rw [h1.2.2.2.1 "b" (by decide)]; decide
